import Mathlib

/-!
Shallow embedding of the core of the `ucp-go-sdk` repository:
the capability negotiation algorithm (`validation/capability.go`,
`models/ucp.go`) and the detached-JWS webhook signature verifier
(`server/webhook.go`).  Go strings are modelled as Lean `String`,
byte slices as `List Nat`, Go panics as `Option.none` / explicit
error values, and the external crypto/encoding libraries used by the
verifier as a record of primitive operations.
-/

namespace UCP

/-! ## Go string primitives -/

/-- Models Go `strings.Split(s, string(sep))` for a one-character
separator: the list of substrings of `s` between occurrences of `sep`.
`goSplitAux` walks the character list carrying the (reversed) current
segment. -/
def goSplitAux (sep : Char) : List Char → List Char → List (List Char)
  | [], acc => [acc.reverse]
  | c :: rest, acc =>
      if c == sep then acc.reverse :: goSplitAux sep rest []
      else goSplitAux sep rest (c :: acc)

/-- Models Go `strings.Split(s, string(sep))`. -/
def goSplit (sep : Char) (s : String) : List String :=
  (goSplitAux sep s.toList []).map (fun cs => String.mk cs)

/-- Value of a list of decimal digit characters, most significant first. -/
def digitsVal (l : List Char) : Int :=
  l.foldl (fun acc c => acc * 10 + Int.ofNat (c.toNat - 48)) 0

/-- Go `int64` clamping used by `strconv.ParseInt` on range error. -/
def clampInt64 (n : Int) : Int :=
  if n > 9223372036854775807 then 9223372036854775807
  else if n < -9223372036854775808 then -9223372036854775808
  else n

/-- Models Go `strconv.Atoi(s)` with the error ignored (as the source
does): an optional sign followed by at least one decimal digit parses to
its (int64-clamped) value; any syntax error yields `0`. -/
def goAtoi (s : String) : Int :=
  match s.toList with
  | [] => 0
  | c :: rest =>
      if c == '+' then
        if rest ≠ [] ∧ rest.all Char.isDigit then clampInt64 (digitsVal rest) else 0
      else if c == '-' then
        if rest ≠ [] ∧ rest.all Char.isDigit then clampInt64 (-(digitsVal rest)) else 0
      else if (c :: rest).all Char.isDigit then clampInt64 (digitsVal (c :: rest))
      else 0

/-- Models `models.Version.IsValid`: the regex `^\d{4}-\d{2}-\d{2}$`. -/
def isValidVersion (s : String) : Bool :=
  match s.toList with
  | [y1, y2, y3, y4, s1, m1, m2, s2, d1, d2] =>
      y1.isDigit && y2.isDigit && y3.isDigit && y4.isDigit &&
      s1 == '-' && m1.isDigit && m2.isDigit && s2 == '-' &&
      d1.isDigit && d2.isDigit
  | _ => false

/-! ## Capability negotiation (`validation/capability.go`) -/

/-- Models `models.CapabilityDiscovery` (via `CapabilityBase`): the
fields copied verbatim by negotiation.  The opaque
`Config`/`AdditionalProperties` maps are modelled as an association
list of opaque entries, carried verbatim. -/
structure CapabilityDiscovery where
  Name : String
  Version : String
  Spec : String
  Schema : String
  ExtendsName : String
  Config : List (String × String)
deriving DecidableEq, Repr

/-- Models `validation.VersionMismatch`. -/
structure VersionMismatch where
  Capability : String
  PlatformVersion : String
  BusinessVersion : String
deriving DecidableEq, Repr

/-- Models `validation.NegotiationResult`. -/
structure NegotiationResult where
  Success : Bool
  CommonCapabilities : List CapabilityDiscovery
  MissingRequired : List String
  VersionMismatches : List VersionMismatch
  NegotiatedVersion : String
deriving DecidableEq, Repr

/-- Models `models.DiscoveryProfile` (the fields negotiation reads). -/
structure DiscoveryProfile where
  Version : String
  Capabilities : List CapabilityDiscovery
deriving DecidableEq, Repr

/-- Models `models.UCPProfile` (the field negotiation reads). -/
structure UCPProfile where
  UCP : DiscoveryProfile
deriving DecidableEq, Repr

/-- Models `validation.CapabilityNegotiator`. -/
structure CapabilityNegotiator where
  platformCapabilities : List CapabilityDiscovery
deriving DecidableEq, Repr

/-- Models `versionsCompatible`: both versions must satisfy
`Version.IsValid` and agree on the first dash-separated component. -/
def versionsCompatible (v1 v2 : String) : Bool :=
  if !(isValidVersion v1) || !(isValidVersion v2) then false
  else
    ((goSplit '-' v1).headD "") == ((goSplit '-' v2).headD "")

/-- Loop body of `compareVersions`: Go iterates `i = 0,1,2`, indexing
`parts1[i]` and `parts2[i]`.  An out-of-range index is a Go panic,
modelled as `none`.  The two parts lists advance in lockstep, with the
remaining iteration count as fuel. -/
def cmpParts : List String → List String → Nat → Option Int
  | _, _, 0 => some 0
  | [], _, _ + 1 => none
  | _ :: _, [], _ + 1 => none
  | a :: as, b :: bs, k + 1 =>
      let n1 := goAtoi a
      let n2 := goAtoi b
      if n1 < n2 then some (-1)
      else if n1 > n2 then some 1
      else cmpParts as bs k

/-- Models `compareVersions`: splits both versions on `-` and compares
the first three components as integers; `none` models the index
out-of-range panic when a parts list has fewer than 3 components and
the comparison has not already returned. -/
def compareVersions (v1 v2 : String) : Option Int :=
  cmpParts (goSplit '-' v1) (goSplit '-' v2) 3

/-- Models `negotiateProtocolVersion`: the lower of the two versions
(`none` propagates the `compareVersions` panic). -/
def negotiateProtocolVersion (v1 v2 : String) : Option String :=
  (compareVersions v1 v2).map (fun c => if c < 0 then v1 else v2)

/-- Models `getMinPlatformVersion`: the empty string when there are no
platform capabilities, else the fold of `compareVersions`-minimum over
the capability versions (`none` propagates a panic). -/
def getMinPlatformVersion (n : CapabilityNegotiator) : Option String :=
  match n.platformCapabilities with
  | [] => some ""
  | c0 :: rest =>
      rest.foldlM
        (fun minV cap =>
          (compareVersions cap.Version minV).map
            (fun r => if r < 0 then cap.Version else minV))
        c0.Version

/-- Models the `businessCaps` map built by `Negotiate`: entries are
prepended so a later duplicate name shadows an earlier one, exactly the
last-write-wins behaviour of the Go map; the map is only ever read via
`lookup`. -/
def buildBusinessCaps (caps : List CapabilityDiscovery) :
    List (String × CapabilityDiscovery) :=
  caps.foldl (fun m cap => (cap.Name, cap) :: m) []

/-- Loop body of the common-capability loop of `Negotiate`: for one
platform capability, either skip it, record a version mismatch, or
append the negotiated descriptor (the platform capability, with the
business version substituted when it is older). -/
def negotiateStep (businessCaps : List (String × CapabilityDiscovery))
    (acc : List CapabilityDiscovery × List VersionMismatch)
    (platformCap : CapabilityDiscovery) :
    Option (List CapabilityDiscovery × List VersionMismatch) :=
  match businessCaps.lookup platformCap.Name with
  | none => some acc
  | some businessCap =>
      if !(versionsCompatible platformCap.Version businessCap.Version) then
        some (acc.1,
          acc.2 ++ [⟨platformCap.Name, platformCap.Version, businessCap.Version⟩])
      else
        match compareVersions businessCap.Version platformCap.Version with
        | none => none
        | some c =>
            some (acc.1 ++
              [if c < 0 then { platformCap with Version := businessCap.Version }
               else platformCap],
              acc.2)

/-- The common-capability loop of `Negotiate` over all platform
capabilities. -/
def negotiateCommon (platformCaps : List CapabilityDiscovery)
    (businessCaps : List (String × CapabilityDiscovery)) :
    Option (List CapabilityDiscovery × List VersionMismatch) :=
  platformCaps.foldlM (negotiateStep businessCaps) ([], [])

/-- The required-capability loop of `Negotiate`: accumulates
`MissingRequired` and the `Success` flag (initially `true`, set `false`
whenever a required name is absent from the common set). -/
def checkRequired (common : List CapabilityDiscovery) (required : List String) :
    List String × Bool :=
  required.foldl
    (fun acc r =>
      if common.any (fun c => c.Name == r) then acc
      else (acc.1 ++ [r], false))
    ([], true)

/-- Models `CapabilityNegotiator.Negotiate`.  `none` models a Go panic
(reachable only through `compareVersions` on malformed version
strings). -/
def Negotiate (n : CapabilityNegotiator) (businessProfile : UCPProfile)
    (requiredCapabilities : List String) : Option NegotiationResult :=
  match negotiateCommon n.platformCapabilities
      (buildBusinessCaps businessProfile.UCP.Capabilities) with
  | none => none
  | some (common, mismatches) =>
      match getMinPlatformVersion n with
      | none => none
      | some minV =>
          match negotiateProtocolVersion businessProfile.UCP.Version minV with
          | none => none
          | some nv =>
              some ⟨if mismatches.length > 0 then false
                    else (checkRequired common requiredCapabilities).2,
                    common, (checkRequired common requiredCapabilities).1,
                    mismatches, nv⟩

/-- State-passing form of the Go method call
`n.Negotiate(profile, required)`: the method body contains no write to
the receiver (`n.platformCapabilities` is only read), so the faithful
translation returns the receiver unchanged alongside the result. -/
def NegotiateCall (n : CapabilityNegotiator) (businessProfile : UCPProfile)
    (requiredCapabilities : List String) :
    Option NegotiationResult × CapabilityNegotiator :=
  (Negotiate n businessProfile requiredCapabilities, n)

/-! ## Spec-side version ordering

The specification describes version comparison as the left-to-right
lexicographic ordering of the three dash-separated components parsed as
integers.  These definitions follow the spec's words; the theorems
relate them to the source-derived `compareVersions`. -/

/-- The three integer components of a version string (spec's
"year, month, day as integers"). -/
def versionTriple (v : String) : Int × Int × Int :=
  match goSplit '-' v with
  | y :: m :: d :: _ => (goAtoi y, goAtoi m, goAtoi d)
  | _ => (0, 0, 0)

/-- Spec-side strict ordering: left-to-right lexicographic comparison
of the three integer components. -/
def tripleLT (a b : Int × Int × Int) : Prop :=
  a.1 < b.1 ∨ (a.1 = b.1 ∧ (a.2.1 < b.2.1 ∨ (a.2.1 = b.2.1 ∧ a.2.2 < b.2.2)))

instance (a b : Int × Int × Int) : Decidable (tripleLT a b) := by
  unfold tripleLT
  exact inferInstance

/-- Spec-side "v is no later than w" under the three-component integer
ordering. -/
def versionLE (v w : String) : Prop :=
  ¬ tripleLT (versionTriple w) (versionTriple v)

instance (v w : String) : Decidable (versionLE v w) := by
  unfold versionLE
  exact inferInstance

/-- Spec-side "the earlier of the two versions" (ties keep the second
argument, which for valid versions coincides with the first). -/
def versionEarlier (v1 v2 : String) : String :=
  if tripleLT (versionTriple v1) (versionTriple v2) then v1 else v2

/-- Spec-side `min(platformVersion, businessVersion)` under the
three-component integer ordering (ties keep the platform version, which
for valid versions coincides with the business version). -/
def specMinVersion (pv bv : String) : String :=
  if tripleLT (versionTriple bv) (versionTriple pv) then bv else pv

/-! ## Webhook signature verification (`server/webhook.go`) -/

/-- Models `crypto.PublicKey` as stored in the verifier's key map: the
decoded form is either an `*ecdsa.PublicKey` or an `*rsa.PublicKey`
(the only constructors `jwkToPublicKey` produces). -/
inductive PublicKey where
  | ec (curve : String) (x y : Int) : PublicKey
  | rsa (n : Int) (e : Int) : PublicKey
deriving DecidableEq, Repr

/-- The error surface of `VerifyRequest`, one constructor per distinct
error site in `server/webhook.go` (`invalidKeyType alg` covers the two
"invalid key type for ES256"/"invalid key type for RS256" sites). -/
inductive VerifyError where
  | missingSignatureHeader
  | invalidJWSFormat
  | headerDecodeFailed
  | headerParseFailed
  | unknownKeyID (kid : String)
  | signatureDecodeFailed
  | unsupportedAlgorithm (alg : String)
  | invalidKeyType (alg : String)
  | invalidES256SignatureLength
  | signatureVerificationFailed
deriving DecidableEq, Repr

/-- The external library operations `VerifyRequest` calls (base64url
codec, JSON header parsing, SHA-256, and the two signature-verification
primitives), treated as collaborators outside the repository. -/
structure WebhookPrims where
  b64Decode : String → Option (List Nat)
  b64Encode : List Nat → String
  parseJWSHeader : List Nat → Option (String × String)
  sha256 : String → List Nat
  ecdsaVerify : String → Int → Int → List Nat → Int → Int → Bool
  rsaVerifyPKCS1v15 : Int → Int → List Nat → List Nat → Bool

/-- Models `big.Int.SetBytes`: big-endian unsigned interpretation. -/
def bytesToInt (bs : List Nat) : Int :=
  bs.foldl (fun acc b => acc * 256 + Int.ofNat b) 0

/-- Models `WebhookVerifier`: the `kid`-to-decoded-key mapping built at
construction, read only via lookup afterwards. -/
structure WebhookVerifier where
  keys : List (String × PublicKey)

/-- Models `verifyES256`. -/
def verifyES256 (P : WebhookPrims) (key : PublicKey) (signingInput : String)
    (signature : List Nat) : Except VerifyError Unit :=
  match key with
  | .ec curve x y =>
      let hash := P.sha256 signingInput
      if signature.length ≠ 64 then .error .invalidES256SignatureLength
      else
        let r := bytesToInt (signature.take 32)
        let s := bytesToInt (signature.drop 32)
        if P.ecdsaVerify curve x y hash r s then .ok ()
        else .error .signatureVerificationFailed
  | _ => .error (.invalidKeyType "ES256")

/-- Models `verifyRS256`. -/
def verifyRS256 (P : WebhookPrims) (key : PublicKey) (signingInput : String)
    (signature : List Nat) : Except VerifyError Unit :=
  match key with
  | .rsa n e =>
      let hash := P.sha256 signingInput
      if P.rsaVerifyPKCS1v15 n e hash signature then .ok ()
      else .error .signatureVerificationFailed
  | _ => .error (.invalidKeyType "RS256")

/-- Models `WebhookVerifier.VerifyRequest`.  The `sig` argument is the
value of the `X-Detached-JWT` header (Go `r.Header.Get` yields the
empty string when the header is absent); `body` is the raw request
body. -/
def VerifyRequest (P : WebhookPrims) (v : WebhookVerifier) (sig : String)
    (body : List Nat) : Except VerifyError Unit :=
  if sig == "" then .error .missingSignatureHeader
  else
    match goSplit '.' sig with
    | [p0, _, p2] =>
        match P.b64Decode p0 with
        | none => .error .headerDecodeFailed
        | some headerBytes =>
            match P.parseJWSHeader headerBytes with
            | none => .error .headerParseFailed
            | some (alg, kid) =>
                match v.keys.lookup kid with
                | none => .error (.unknownKeyID kid)
                | some key =>
                    let payloadB64 := P.b64Encode body
                    let signingInput := p0 ++ "." ++ payloadB64
                    match P.b64Decode p2 with
                    | none => .error .signatureDecodeFailed
                    | some signature =>
                        match alg with
                        | "ES256" => verifyES256 P key signingInput signature
                        | "RS256" => verifyRS256 P key signingInput signature
                        | _ => .error (.unsupportedAlgorithm alg)
    | _ => .error .invalidJWSFormat

/-! ## Concrete instances of the external primitives

Executable models of `base64.RawURLEncoding` and of `json.Unmarshal`
restricted to canonical `{"alg":...,"kid":...}` objects, used to
instantiate `WebhookPrims` on concrete inputs. -/

/-- The base64url alphabet. -/
def b64Alphabet : List Char :=
  "ABCDEFGHIJKLMNOPQRSTUVWXYZabcdefghijklmnopqrstuvwxyz0123456789-_".toList

/-- The base64url character for a 6-bit value. -/
def b64Char (n : Nat) : Char := b64Alphabet.getD n 'A'

/-- The 6-bit value of a base64url character, `none` for a character
outside the alphabet. -/
def b64Index (c : Char) : Option Nat :=
  if 'A' ≤ c ∧ c ≤ 'Z' then some (c.toNat - 65)
  else if 'a' ≤ c ∧ c ≤ 'z' then some (c.toNat - 71)
  else if '0' ≤ c ∧ c ≤ '9' then some (c.toNat + 4)
  else if c == '-' then some 62
  else if c == '_' then some 63
  else none

/-- Models unpadded base64url decoding quantum by quantum: a trailing
single character or any character outside the alphabet is corrupt
input. -/
def b64DecodeChars : List Char → Option (List Nat)
  | [] => some []
  | [_] => none
  | [c1, c2] =>
      match b64Index c1, b64Index c2 with
      | some i1, some i2 => some [i1 * 4 + i2 / 16]
      | _, _ => none
  | [c1, c2, c3] =>
      match b64Index c1, b64Index c2, b64Index c3 with
      | some i1, some i2, some i3 =>
          some [i1 * 4 + i2 / 16, (i2 % 16) * 16 + i3 / 4]
      | _, _, _ => none
  | c1 :: c2 :: c3 :: c4 :: rest =>
      match b64Index c1, b64Index c2, b64Index c3, b64Index c4,
          b64DecodeChars rest with
      | some i1, some i2, some i3, some i4, some bs =>
          some ([i1 * 4 + i2 / 16, (i2 % 16) * 16 + i3 / 4,
                 (i3 % 4) * 64 + i4] ++ bs)
      | _, _, _, _, _ => none

/-- Models `base64.RawURLEncoding.DecodeString`. -/
def b64DecodeStr (s : String) : Option (List Nat) := b64DecodeChars s.toList

/-- Models unpadded base64url encoding quantum by quantum. -/
def b64EncodeBytes : List Nat → List Char
  | [] => []
  | [b1] => [b64Char (b1 / 4), b64Char ((b1 % 4) * 16)]
  | [b1, b2] =>
      [b64Char (b1 / 4), b64Char ((b1 % 4) * 16 + b2 / 16),
       b64Char ((b2 % 16) * 4)]
  | b1 :: b2 :: b3 :: rest =>
      [b64Char (b1 / 4), b64Char ((b1 % 4) * 16 + b2 / 16),
       b64Char ((b2 % 16) * 4 + b3 / 64), b64Char (b3 % 64)] ++
      b64EncodeBytes rest

/-- Models `base64.RawURLEncoding.EncodeToString`. -/
def b64EncodeStr (bs : List Nat) : String := String.mk (b64EncodeBytes bs)

/-- Consumes characters up to the next double quote, returning the
consumed prefix and the remainder after the quote. -/
def takeUntilQuote : List Char → Option (List Char × List Char)
  | [] => none
  | c :: rest =>
      if c == '"' then some ([], rest)
      else
        match takeUntilQuote rest with
        | some (v, r) => some (c :: v, r)
        | none => none

/-- Consumes an expected literal prefix. -/
def dropLit : List Char → List Char → Option (List Char)
  | [], rest => some rest
  | _ :: _, [] => none
  | c :: cs, d :: rest => if c == d then dropLit cs rest else none

/-- Models `json.Unmarshal` into the `{Alg, Kid}` header struct,
restricted to the canonical serialization
`{"alg":"...","kid":"..."}`; it agrees with the Go library on every
input it accepts. -/
def parseSimpleJWSHeader (bytes : List Nat) : Option (String × String) :=
  let cs := bytes.map Char.ofNat
  match dropLit "\x7b\"alg\":\"".toList cs with
  | none => none
  | some r1 =>
      match takeUntilQuote r1 with
      | none => none
      | some (alg, r2) =>
          match dropLit ",\"kid\":\"".toList r2 with
          | none => none
          | some r3 =>
              match takeUntilQuote r3 with
              | none => none
              | some (kid, r4) =>
                  if r4 == [Char.ofNat 125] then
                    some (String.mk alg, String.mk kid)
                  else none

/-- UTF-8 bytes of an ASCII string. -/
def strToBytes (s : String) : List Nat := s.toList.map Char.toNat

/-- Concrete instantiation of the external primitives: the real
base64url codec, the canonical JWS-header parser, and signature
primitives that reject everything (sufficient for the error-path
properties exercised on concrete inputs). -/
def testPrims : WebhookPrims where
  b64Decode := b64DecodeStr
  b64Encode := b64EncodeStr
  parseJWSHeader := parseSimpleJWSHeader
  sha256 := fun _ => List.replicate 32 0
  ecdsaVerify := fun _ _ _ _ _ _ => false
  rsaVerifyPKCS1v15 := fun _ _ _ _ => false

/-- A concrete EC test key. -/
def ecTestKey : PublicKey := .ec "P-256" 1 2

/-- A concrete RSA test key. -/
def rsaTestKey : PublicKey := .rsa 3233 17

/-- A verifier loaded with one EC key under `k1` and one RSA key under
`rk`. -/
def testVerifier : WebhookVerifier := ⟨[("k1", ecTestKey), ("rk", rsaTestKey)]⟩

/-- A concrete request body. -/
def testBody : List Nat := strToBytes "\x7b\"ok\":true\x7d"

/-- The canonical JSON serialization of a JWS protected header. -/
def jsonHdr (alg kid : String) : String :=
  "\x7b\"alg\":\"" ++ alg ++ "\",\"kid\":\"" ++ kid ++ "\"\x7d"

/-- The base64url encoding of a canonical JWS protected header. -/
def hdrB64 (alg kid : String) : String := b64EncodeStr (strToBytes (jsonHdr alg kid))

/-- A concrete platform checkout capability. -/
def capCheckout : CapabilityDiscovery :=
  ⟨"dev.ucp.shopping.checkout", "2026-01-11", "", "", "", []⟩

/-- The same capability as declared by a business, at a newer version
in the same year. -/
def capCheckoutNewer : CapabilityDiscovery :=
  ⟨"dev.ucp.shopping.checkout", "2026-06-30", "", "", "", []⟩

/-- A platform capability dated in 2025. -/
def capYear25 : CapabilityDiscovery :=
  ⟨"dev.ucp.shopping.cart", "2025-12-31", "", "", "", []⟩

/-- The same capability as declared by a business, one day later but in
2026. -/
def capYear26 : CapabilityDiscovery :=
  ⟨"dev.ucp.shopping.cart", "2026-01-01", "", "", "", []⟩

/-- A negotiator declaring one checkout capability. -/
def negOne : CapabilityNegotiator := ⟨[capCheckout]⟩

/-- A negotiator declaring one 2025-dated capability. -/
def negYear25 : CapabilityNegotiator := ⟨[capYear25]⟩

/-- A business profile matching `capCheckout` exactly. -/
def profSame : UCPProfile := ⟨⟨"2026-01-11", [capCheckout]⟩⟩

/-- A business profile declaring the newer checkout capability. -/
def profNewer : UCPProfile := ⟨⟨"2026-06-30", [capCheckoutNewer]⟩⟩

/-- A business profile declaring the 2026-dated capability. -/
def profYear26 : UCPProfile := ⟨⟨"2026-01-01", [capYear26]⟩⟩

/-- The negotiation result of `negOne` against `profSame`. -/
def resSame : NegotiationResult := ⟨true, [capCheckout], [], [], "2026-01-11"⟩

/-- The negotiation result of `negOne` against `profNewer`. -/
def resNewer : NegotiationResult := ⟨true, [capCheckout], [], [], "2026-01-11"⟩

/-- The negotiation result of `negYear25` against `profYear26`. -/
def resMismatch : NegotiationResult :=
  ⟨false, [], [],
   [⟨"dev.ucp.shopping.cart", "2025-12-31", "2026-01-01"⟩], "2025-12-31"⟩

/-! ## Basic lemmas on the string primitives -/

/-- A decimal digit is not a separator character. -/
lemma isDigit_ne_char {c d : Char} (h : c.isDigit = true) (hd : d.isDigit = false) :
    (c == d) = false := by
  rcases eq_or_ne c d with rfl | hne
  · rw [h] at hd
    exact absurd hd (by simp)
  · simp [hne]

/-- Splitting the empty string yields one empty segment. -/
lemma goSplit_empty (sep : Char) : goSplit sep "" = [""] := rfl

/-- A valid version string is ten characters: four digits, a dash,
two digits, a dash, two digits. -/
lemma valid_shape {v : String} (h : isValidVersion v = true) :
    ∃ y1 y2 y3 y4 m1 m2 d1 d2 : Char,
      v.toList = [y1, y2, y3, y4, '-', m1, m2, '-', d1, d2] ∧
      y1.isDigit = true ∧ y2.isDigit = true ∧ y3.isDigit = true ∧
      y4.isDigit = true ∧ m1.isDigit = true ∧ m2.isDigit = true ∧
      d1.isDigit = true ∧ d2.isDigit = true := by
  unfold isValidVersion at h
  rcases hL : v.toList with _ | ⟨c1, _ | ⟨c2, _ | ⟨c3, _ | ⟨c4, _ | ⟨c5, _ | ⟨c6,
    _ | ⟨c7, _ | ⟨c8, _ | ⟨c9, _ | ⟨c10, rest⟩⟩⟩⟩⟩⟩⟩⟩⟩⟩ <;> rw [hL] at h
  · exact Bool.noConfusion h
  · exact Bool.noConfusion h
  · exact Bool.noConfusion h
  · exact Bool.noConfusion h
  · exact Bool.noConfusion h
  · exact Bool.noConfusion h
  · exact Bool.noConfusion h
  · exact Bool.noConfusion h
  · exact Bool.noConfusion h
  · exact Bool.noConfusion h
  · cases rest with
    | nil =>
        simp only [Bool.and_eq_true, beq_iff_eq] at h
        obtain ⟨⟨⟨⟨⟨⟨⟨⟨⟨h1, h2⟩, h3⟩, h4⟩, h5⟩, h6⟩, h7⟩, h8⟩, h9⟩, h10⟩ := h
        exact ⟨c1, c2, c3, c4, c6, c7, c9, c10, by rw [h5, h8], h1, h2, h3, h4, h6, h7, h9, h10⟩
    | cons c11 rest2 => exact Bool.noConfusion h

/-- Splitting a valid version on dashes yields exactly its year, month
and day components. -/
lemma goSplit_of_valid {v : String} (h : isValidVersion v = true) :
    ∃ y1 y2 y3 y4 m1 m2 d1 d2 : Char,
      v.toList = [y1, y2, y3, y4, '-', m1, m2, '-', d1, d2] ∧
      y1.isDigit = true ∧ y2.isDigit = true ∧ y3.isDigit = true ∧
      y4.isDigit = true ∧ m1.isDigit = true ∧ m2.isDigit = true ∧
      d1.isDigit = true ∧ d2.isDigit = true ∧
      goSplit '-' v = [String.mk [y1, y2, y3, y4], String.mk [m1, m2],
                       String.mk [d1, d2]] := by
  obtain ⟨y1, y2, y3, y4, m1, m2, d1, d2, hL, h1, h2, h3, h4, h5, h6, h7, h8⟩ :=
    valid_shape h
  refine ⟨y1, y2, y3, y4, m1, m2, d1, d2, hL, h1, h2, h3, h4, h5, h6, h7, h8, ?_⟩
  have hd : ('-' : Char).isDigit = false := by decide
  unfold goSplit
  rw [hL]
  simp only [goSplitAux, isDigit_ne_char h1 hd, isDigit_ne_char h2 hd,
    isDigit_ne_char h3 hd, isDigit_ne_char h4 hd, isDigit_ne_char h5 hd,
    isDigit_ne_char h6 hd, isDigit_ne_char h7 hd, isDigit_ne_char h8 hd,
    beq_self_eq_true, if_true, if_false, Bool.false_eq_true, List.reverse_cons,
    List.reverse_nil, List.nil_append, List.cons_append, List.map_cons,
    List.map_nil]

/-- The fold underlying `digitsVal` is monotone in sign. -/
lemma digitsVal_foldl_nonneg (l : List Char) :
    ∀ acc : Int, 0 ≤ acc →
      0 ≤ l.foldl (fun acc c => acc * 10 + Int.ofNat (c.toNat - 48)) acc := by
  induction l with
  | nil => intro acc h; simpa using h
  | cons c cs ih =>
      intro acc h
      simp only [List.foldl_cons]
      refine ih _ ?_
      have : 0 ≤ Int.ofNat (c.toNat - 48) := Int.ofNat_nonneg _
      omega

/-- Digit-string values are nonnegative. -/
lemma digitsVal_nonneg (l : List Char) : 0 ≤ digitsVal l :=
  digitsVal_foldl_nonneg l 0 le_rfl

/-- Clamping preserves nonnegativity. -/
lemma clampInt64_nonneg {n : Int} (h : 0 ≤ n) : 0 ≤ clampInt64 n := by
  unfold clampInt64
  split_ifs <;> omega

/-- On a nonempty all-digit string, `goAtoi` is the clamped digit
value. -/
lemma goAtoi_digits {c : Char} {rest : List Char} (hc : c.isDigit = true)
    (hrest : (c :: rest).all Char.isDigit = true) :
    goAtoi (String.mk (c :: rest)) = clampInt64 (digitsVal (c :: rest)) := by
  have hplus : (c == '+') = false := isDigit_ne_char hc (by decide)
  have hminus : (c == '-') = false := isDigit_ne_char hc (by decide)
  unfold goAtoi
  simp only [String.toList, String.data]
  rw [hplus, hminus]
  simp only [Bool.false_eq_true, if_false, hrest, if_true]

/-- `goAtoi` of a nonempty all-digit string is nonnegative. -/
lemma goAtoi_digits_nonneg {c : Char} {rest : List Char} (hc : c.isDigit = true)
    (hrest : (c :: rest).all Char.isDigit = true) :
    0 ≤ goAtoi (String.mk (c :: rest)) := by
  rw [goAtoi_digits hc hrest]
  exact clampInt64_nonneg (digitsVal_nonneg _)

/-- One iteration of the comparison loop. -/
lemma cmpParts_cons (a b : String) (as bs : List String) (k : Nat) :
    cmpParts (a :: as) (b :: bs) (k + 1) =
      if goAtoi a < goAtoi b then some (-1)
      else if goAtoi a > goAtoi b then some 1
      else cmpParts as bs k := rfl

/-- The loop with no remaining iterations returns equality. -/
lemma cmpParts_zero (l1 l2 : List String) : cmpParts l1 l2 0 = some 0 := by
  cases l1 <;> cases l2 <;> rfl

/-- The three-iteration comparison loop on two three-component lists. -/
lemma cmpParts_three (a1 b1 c1 a2 b2 c2 : String) :
    cmpParts [a1, b1, c1] [a2, b2, c2] 3 =
      some (if goAtoi a1 < goAtoi a2 then -1
            else if goAtoi a1 > goAtoi a2 then 1
            else if goAtoi b1 < goAtoi b2 then -1
            else if goAtoi b1 > goAtoi b2 then 1
            else if goAtoi c1 < goAtoi c2 then -1
            else if goAtoi c1 > goAtoi c2 then 1
            else 0) := by
  rw [show (3 : Nat) = 2 + 1 from rfl, cmpParts_cons,
    show (2 : Nat) = 1 + 1 from rfl, cmpParts_cons,
    show (1 : Nat) = 0 + 1 from rfl, cmpParts_cons, cmpParts_zero]
  split_ifs <;> rfl

/-- Source comparison agrees with the spec-side three-component
integer ordering on valid versions. -/
lemma compareVersions_valid {v1 v2 : String} (h1 : isValidVersion v1 = true)
    (h2 : isValidVersion v2 = true) :
    compareVersions v1 v2 =
      some (if tripleLT (versionTriple v1) (versionTriple v2) then -1
            else if tripleLT (versionTriple v2) (versionTriple v1) then 1
            else 0) := by
  obtain ⟨y1, y2, y3, y4, m1, m2, d1, d2, hL1, hy1, hy2, hy3, hy4, hm1, hm2,
    hd1, hd2, hsp1⟩ := goSplit_of_valid h1
  obtain ⟨z1, z2, z3, z4, n1, n2, e1, e2, hL2, hz1, hz2, hz3, hz4, hn1, hn2,
    he1, he2, hsp2⟩ := goSplit_of_valid h2
  unfold compareVersions versionTriple
  rw [hsp1, hsp2, cmpParts_three]
  congr 1
  simp only [tripleLT]
  split_ifs <;> omega

/-- The three-component ordering is irreflexive. -/
lemma tripleLT_irrefl (a : Int × Int × Int) : ¬ tripleLT a a := by
  obtain ⟨x, y, z⟩ := a
  simp only [tripleLT]
  omega

/-- The three-component ordering is asymmetric. -/
lemma tripleLT_asymm {a b : Int × Int × Int} (h : tripleLT a b) :
    ¬ tripleLT b a := by
  obtain ⟨x1, y1, z1⟩ := a
  obtain ⟨x2, y2, z2⟩ := b
  simp only [tripleLT] at *
  omega

/-- Non-strict transitivity of the three-component ordering. -/
lemma tripleLE_trans {a b c : Int × Int × Int} (hab : ¬ tripleLT b a)
    (hbc : ¬ tripleLT c b) : ¬ tripleLT c a := by
  obtain ⟨x1, y1, z1⟩ := a
  obtain ⟨x2, y2, z2⟩ := b
  obtain ⟨x3, y3, z3⟩ := c
  simp only [tripleLT] at *
  omega

/-- Mixed transitivity: at most `b` and `b` strictly before `c` gives
at most `c`. -/
lemma tripleLE_of_le_lt {a b c : Int × Int × Int} (hab : ¬ tripleLT b a)
    (hbc : tripleLT b c) : ¬ tripleLT c a := by
  obtain ⟨x1, y1, z1⟩ := a
  obtain ⟨x2, y2, z2⟩ := b
  obtain ⟨x3, y3, z3⟩ := c
  simp only [tripleLT] at *
  omega

/-- Compatible versions are both valid. -/
lemma versionsCompatible_valid {v1 v2 : String}
    (h : versionsCompatible v1 v2 = true) :
    isValidVersion v1 = true ∧ isValidVersion v2 = true := by
  unfold versionsCompatible at h
  by_cases h1 : isValidVersion v1 = true
  · by_cases h2 : isValidVersion v2 = true
    · exact ⟨h1, h2⟩
    · rw [Bool.not_eq_true] at h2
      rw [h2] at h
      simp at h
  · rw [Bool.not_eq_true] at h1
    rw [h1] at h
    simp at h

/-- On valid inputs, protocol-version negotiation picks the spec-side
earlier version. -/
lemma negotiateProtocolVersion_valid {v1 v2 : String}
    (h1 : isValidVersion v1 = true) (h2 : isValidVersion v2 = true) :
    negotiateProtocolVersion v1 v2 = some (versionEarlier v1 v2) := by
  unfold negotiateProtocolVersion versionEarlier
  rw [compareVersions_valid h1 h2]
  simp only [Option.map_some']
  congr 1
  by_cases hlt : tripleLT (versionTriple v1) (versionTriple v2)
  · simp [hlt]
  · simp only [hlt, if_false]
    by_cases hgt : tripleLT (versionTriple v2) (versionTriple v1) <;>
      simp [hgt]

/-- With a valid business version whose year component is nonzero,
negotiating against the empty-string platform minimum picks the empty
string (the degenerate empty-platform case). -/
lemma negotiateProtocolVersion_empty {bv : String}
    (h : isValidVersion bv = true) (hy : (versionTriple bv).1 ≠ 0) :
    negotiateProtocolVersion bv "" = some "" := by
  obtain ⟨y1, y2, y3, y4, m1, m2, d1, d2, hL, h1, h2, h3, h4, h5, h6, h7, h8,
    hsp⟩ := goSplit_of_valid h
  have htr : versionTriple bv =
      (goAtoi (String.mk [y1, y2, y3, y4]), goAtoi (String.mk [m1, m2]),
       goAtoi (String.mk [d1, d2])) := by
    unfold versionTriple
    rw [hsp]
  rw [htr] at hy
  have hnn : 0 ≤ goAtoi (String.mk [y1, y2, y3, y4]) :=
    goAtoi_digits_nonneg h1 (by simp [h1, h2, h3, h4])
  have hz : goAtoi "" = 0 := rfl
  unfold negotiateProtocolVersion compareVersions
  rw [hsp, goSplit_empty, show (3 : Nat) = 2 + 1 from rfl, cmpParts_cons, hz]
  rw [if_neg (by simp only [] at hy; omega), if_pos (by simp only [] at hy; omega)]
  rfl

/-- The minimum fold of `getMinPlatformVersion`, over valid versions:
it returns a value that is one of the candidates (or the seed) and is
no later than every candidate and the seed. -/
lemma minFold_spec (l : List CapabilityDiscovery) :
    ∀ cur : String, isValidVersion cur = true →
      (∀ c ∈ l, isValidVersion c.Version = true) →
      ∃ m, l.foldlM
          (fun minV cap =>
            (compareVersions cap.Version minV).map
              (fun r => if r < 0 then cap.Version else minV)) cur = some m ∧
        isValidVersion m = true ∧
        (m = cur ∨ m ∈ l.map (fun c => c.Version)) ∧
        ¬ tripleLT (versionTriple cur) (versionTriple m) ∧
        (∀ v ∈ l.map (fun c => c.Version),
          ¬ tripleLT (versionTriple v) (versionTriple m)) := by
  induction l with
  | nil =>
      intro cur hcur _
      exact ⟨cur, rfl, hcur, Or.inl rfl, tripleLT_irrefl _, by simp⟩
  | cons c cs ih =>
      intro cur hcur hall
      have hc : isValidVersion c.Version = true := hall c (by simp)
      have hcs : ∀ x ∈ cs, isValidVersion x.Version = true := fun x hx =>
        hall x (by simp [hx])
      rw [List.foldlM_cons, compareVersions_valid hc hcur]
      by_cases hlt : tripleLT (versionTriple c.Version) (versionTriple cur)
      · rw [if_pos hlt]
        simp only [Option.map_some', Option.some_bind, if_pos
          (show (-1 : Int) < 0 by norm_num)]
        obtain ⟨m, hm, hmv, hmem, hle, hrest⟩ := ih c.Version hc hcs
        refine ⟨m, hm, hmv, ?_, ?_, ?_⟩
        · rcases hmem with rfl | hm2
          · exact Or.inr (by simp)
          · exact Or.inr (by simp [hm2])
        · exact tripleLE_of_le_lt hle hlt
        · intro v hv
          rw [List.map_cons] at hv
          rcases List.mem_cons.mp hv with rfl | hv2
          · exact hle
          · exact hrest v hv2
      · rw [if_neg hlt]
        obtain ⟨m, hm, hmv, hmem, hle, hrest⟩ := ih cur hcur hcs
        have hcond : ¬ ((if tripleLT (versionTriple cur) (versionTriple c.Version)
            then (1 : Int) else 0) < 0) := by
          split_ifs <;> omega
        simp only [Option.map_some', Option.some_bind]
        rw [if_neg hcond]
        refine ⟨m, hm, hmv, ?_, hle, ?_⟩
        · rcases hmem with rfl | hm2
          · exact Or.inl rfl
          · exact Or.inr (by simp [hm2])
        · intro v hv
          rw [List.map_cons] at hv
          rcases List.mem_cons.mp hv with rfl | hv2
          · exact tripleLE_trans hle hlt
          · exact hrest v hv2

/-- Spec of `getMinPlatformVersion` on a nonempty, all-valid platform
list: it is one of the platform versions and no later than each. -/
lemma getMinPlatformVersion_spec {n : CapabilityNegotiator}
    (hne : n.platformCapabilities ≠ [])
    (hv : ∀ c ∈ n.platformCapabilities, isValidVersion c.Version = true) :
    ∃ m, getMinPlatformVersion n = some m ∧ isValidVersion m = true ∧
      m ∈ n.platformCapabilities.map (fun c => c.Version) ∧
      ∀ v ∈ n.platformCapabilities.map (fun c => c.Version),
        ¬ tripleLT (versionTriple v) (versionTriple m) := by
  unfold getMinPlatformVersion
  cases hcaps : n.platformCapabilities with
  | nil => exact absurd hcaps hne
  | cons c0 rest =>
      have hc0 : isValidVersion c0.Version = true := by
        refine hv c0 ?_
        rw [hcaps]
        simp
      have hrest : ∀ x ∈ rest, isValidVersion x.Version = true := by
        intro x hx
        refine hv x ?_
        rw [hcaps]
        simp [hx]
      obtain ⟨m, hm, hmv, hmem, hle, hall⟩ := minFold_spec rest c0.Version hc0 hrest
      refine ⟨m, hm, hmv, ?_, ?_⟩
      · rcases hmem with rfl | h2
        · simp
        · simp [h2]
      · intro v hv2
        rw [List.map_cons] at hv2
        rcases List.mem_cons.mp hv2 with rfl | h2
        · exact hle
        · exact hall v h2

/-- When the platform capability has no business counterpart, the step
skips it. -/
lemma negotiateStep_nolook {bc : List (String × CapabilityDiscovery)}
    {p : CapabilityDiscovery}
    (h : bc.lookup p.Name = none)
    (acc : List CapabilityDiscovery × List VersionMismatch) :
    negotiateStep bc acc p = some acc := by
  unfold negotiateStep
  rw [h]

/-- When the versions are incompatible, the step records exactly the
`(name, platformVersion, businessVersion)` mismatch. -/
lemma negotiateStep_incompat {bc : List (String × CapabilityDiscovery)}
    {p b : CapabilityDiscovery}
    (hlook : bc.lookup p.Name = some b)
    (hcompat : versionsCompatible p.Version b.Version = false)
    (acc : List CapabilityDiscovery × List VersionMismatch) :
    negotiateStep bc acc p =
      some (acc.1, acc.2 ++ [⟨p.Name, p.Version, b.Version⟩]) := by
  simp only [negotiateStep, hlook, hcompat, Bool.not_false, if_true]

/-- When the versions are compatible, the step appends the platform
descriptor with the spec-side minimum of the two versions. -/
lemma negotiateStep_compat {bc : List (String × CapabilityDiscovery)}
    {p b : CapabilityDiscovery}
    (hlook : bc.lookup p.Name = some b)
    (hcompat : versionsCompatible p.Version b.Version = true)
    (acc : List CapabilityDiscovery × List VersionMismatch) :
    negotiateStep bc acc p =
      some (acc.1 ++ [{ p with Version := specMinVersion p.Version b.Version }],
        acc.2) := by
  obtain ⟨hvp, hvb⟩ := versionsCompatible_valid hcompat
  simp only [negotiateStep, hlook, hcompat, Bool.not_true, Bool.false_eq_true,
    if_false, compareVersions_valid hvb hvp]
  unfold specMinVersion
  by_cases hlt : tripleLT (versionTriple b.Version) (versionTriple p.Version)
  · rw [if_pos hlt, if_pos hlt, if_pos (show (-1 : Int) < 0 by norm_num)]
  · rw [if_neg hlt, if_neg hlt]
    have hcond : ¬ ((if tripleLT (versionTriple p.Version)
        (versionTriple b.Version) then (1 : Int) else 0) < 0) := by
      split_ifs <;> omega
    rw [if_neg hcond]

/-- Master specification of the common-capability loop: it always
returns (the loop cannot panic), it only appends, every
compatible platform/business pair contributes its min-version
descriptor, every incompatible pair contributes its mismatch record,
and every common descriptor originates from some compatible pair. -/
lemma negotiateFold_spec (bc : List (String × CapabilityDiscovery))
    (l : List CapabilityDiscovery) :
    ∀ acc : List CapabilityDiscovery × List VersionMismatch,
      ∃ res, l.foldlM (negotiateStep bc) acc = some res ∧
        (∀ x ∈ acc.1, x ∈ res.1) ∧ (∀ x ∈ acc.2, x ∈ res.2) ∧
        (∀ p ∈ l, ∀ b, bc.lookup p.Name = some b →
          (versionsCompatible p.Version b.Version = true →
            { p with Version := specMinVersion p.Version b.Version } ∈ res.1) ∧
          (versionsCompatible p.Version b.Version = false →
            VersionMismatch.mk p.Name p.Version b.Version ∈ res.2)) ∧
        (∀ x ∈ res.1, x ∈ acc.1 ∨ ∃ p ∈ l, ∃ b, bc.lookup p.Name = some b ∧
          versionsCompatible p.Version b.Version = true ∧
          x = { p with Version := specMinVersion p.Version b.Version }) := by
  induction l with
  | nil =>
      intro acc
      exact ⟨acc, rfl, fun x hx => hx, fun x hx => hx, by simp,
        fun x hx => Or.inl hx⟩
  | cons c cs ih =>
      intro acc
      rw [List.foldlM_cons]
      cases hlook : bc.lookup c.Name with
      | none =>
          rw [negotiateStep_nolook hlook acc]
          obtain ⟨res, hres, hm1, hm2, hpairs, hsrc⟩ := ih acc
          refine ⟨res, by simpa using hres, hm1, hm2, ?_, ?_⟩
          · intro p hp b hb
            rcases List.mem_cons.mp hp with rfl | hp2
            · rw [hlook] at hb
              exact Option.noConfusion hb
            · exact hpairs p hp2 b hb
          · intro x hx
            rcases hsrc x hx with h | ⟨p, hp, b, hb, hcomp, hxe⟩
            · exact Or.inl h
            · exact Or.inr ⟨p, List.mem_cons_of_mem c hp, b, hb, hcomp, hxe⟩
      | some b0 =>
          cases hcompat : versionsCompatible c.Version b0.Version with
          | false =>
              rw [negotiateStep_incompat hlook hcompat acc]
              obtain ⟨res, hres, hm1, hm2, hpairs, hsrc⟩ :=
                ih (acc.1, acc.2 ++ [⟨c.Name, c.Version, b0.Version⟩])
              refine ⟨res, by simpa using hres, hm1, ?_, ?_, ?_⟩
              · intro x hx
                exact hm2 x (by simp [hx])
              · intro p hp b hb
                rcases List.mem_cons.mp hp with rfl | hp2
                · rw [hlook] at hb
                  injection hb with hb
                  subst hb
                  refine ⟨fun hcc => absurd hcc (by simp [hcompat]), fun _ => ?_⟩
                  exact hm2 _ (by simp)
                · exact hpairs p hp2 b hb
              · intro x hx
                rcases hsrc x hx with h | ⟨p, hp, b, hb, hcomp, hxe⟩
                · exact Or.inl h
                · exact Or.inr ⟨p, List.mem_cons_of_mem c hp, b, hb, hcomp, hxe⟩
          | true =>
              rw [negotiateStep_compat hlook hcompat acc]
              obtain ⟨res, hres, hm1, hm2, hpairs, hsrc⟩ :=
                ih (acc.1 ++
                  [{ c with Version := specMinVersion c.Version b0.Version }],
                  acc.2)
              refine ⟨res, by simpa using hres, ?_, hm2, ?_, ?_⟩
              · intro x hx
                exact hm1 x (by simp [hx])
              · intro p hp b hb
                rcases List.mem_cons.mp hp with rfl | hp2
                · rw [hlook] at hb
                  injection hb with hb
                  subst hb
                  refine ⟨fun _ => ?_, fun hcc => absurd hcc (by simp [hcompat])⟩
                  exact hm1 _ (by simp)
                · exact hpairs p hp2 b hb
              · intro x hx
                rcases hsrc x hx with h | ⟨p, hp, b, hb, hcomp, hxe⟩
                · rcases List.mem_append.mp h with h2 | h2
                  · exact Or.inl h2
                  · refine Or.inr ⟨c, List.mem_cons_self c cs, b0, hlook,
                      hcompat, ?_⟩
                    simpa using h2
                · exact Or.inr ⟨p, List.mem_cons_of_mem c hp, b, hb, hcomp, hxe⟩

/-- The required-capability fold keeps its flag true exactly while its
missing list stays empty. -/
lemma checkRequired_foldl_inv (common : List CapabilityDiscovery) :
    ∀ (req : List String) (acc : List String × Bool),
      (acc.2 = true ↔ acc.1 = []) →
      ((req.foldl
          (fun acc r =>
            if common.any (fun c => c.Name == r) then acc
            else (acc.1 ++ [r], false)) acc).2 = true ↔
        (req.foldl
          (fun acc r =>
            if common.any (fun c => c.Name == r) then acc
            else (acc.1 ++ [r], false)) acc).1 = []) := by
  intro req
  induction req with
  | nil => intro acc h; exact h
  | cons r rs ih =>
      intro acc h
      simp only [List.foldl_cons]
      by_cases hc : common.any (fun c => c.Name == r) = true
      · rw [if_pos hc]
        exact ih acc h
      · rw [if_neg hc]
        refine ih _ ?_
        simp

/-- The `Success` accumulator of `checkRequired` is true exactly when
its missing list is empty. -/
lemma checkRequired_snd_iff (common : List CapabilityDiscovery)
    (req : List String) :
    (checkRequired common req).2 = true ↔ (checkRequired common req).1 = [] :=
  checkRequired_foldl_inv common req ([], true) (by simp)

/-- Destructuring a successful `Negotiate` run into its pieces. -/
lemma negotiate_some_elim {n : CapabilityNegotiator} {profile : UCPProfile}
    {req : List String} {r : NegotiationResult}
    (h : Negotiate n profile req = some r) :
    ∃ common mismatches minV nv,
      negotiateCommon n.platformCapabilities
        (buildBusinessCaps profile.UCP.Capabilities) = some (common, mismatches) ∧
      getMinPlatformVersion n = some minV ∧
      negotiateProtocolVersion profile.UCP.Version minV = some nv ∧
      r = ⟨if mismatches.length > 0 then false
           else (checkRequired common req).2,
           common, (checkRequired common req).1, mismatches, nv⟩ := by
  unfold Negotiate at h
  split at h
  next hcm => exact Option.noConfusion h
  next common mismatches hcm =>
    split at h
    next hmin => exact Option.noConfusion h
    next minV hmin =>
      split at h
      next hnv => exact Option.noConfusion h
      next nv hnv =>
        injection h with h
        exact ⟨common, mismatches, minV, nv, hcm, hmin, hnv, h.symm⟩

/-- Reassembling a `Negotiate` run from its pieces. -/
lemma negotiate_some_intro {n : CapabilityNegotiator} {profile : UCPProfile}
    (req : List String) {common : List CapabilityDiscovery}
    {mismatches : List VersionMismatch} {minV nv : String}
    (hcm : negotiateCommon n.platformCapabilities
      (buildBusinessCaps profile.UCP.Capabilities) = some (common, mismatches))
    (hmin : getMinPlatformVersion n = some minV)
    (hnv : negotiateProtocolVersion profile.UCP.Version minV = some nv) :
    Negotiate n profile req =
      some ⟨if mismatches.length > 0 then false
            else (checkRequired common req).2,
            common, (checkRequired common req).1, mismatches, nv⟩ := by
  unfold Negotiate
  split
  next h2 =>
    rw [hcm] at h2
    exact Option.noConfusion h2
  next common2 mismatches2 h2 =>
    rw [hcm] at h2
    injection h2 with h2
    obtain ⟨rfl, rfl⟩ := Prod.mk.inj h2
    split
    next h3 =>
      rw [hmin] at h3
      exact Option.noConfusion h3
    next minV2 h3 =>
      rw [hmin] at h3
      injection h3 with h3
      subst h3
      split
      next h4 =>
        rw [hnv] at h4
        exact Option.noConfusion h4
      next nv2 h4 =>
        rw [hnv] at h4
        injection h4 with h4
        subst h4
        rfl

/-- Compatibility is exactly: both versions valid and their four-digit
year prefixes equal. -/
lemma versionsCompatible_iff (v1 v2 : String) :
    versionsCompatible v1 v2 = true ↔
      (isValidVersion v1 = true ∧ isValidVersion v2 = true ∧
        v1.toList.take 4 = v2.toList.take 4) := by
  constructor
  · intro h
    obtain ⟨h1, h2⟩ := versionsCompatible_valid h
    refine ⟨h1, h2, ?_⟩
    obtain ⟨y1, y2, y3, y4, m1, m2, d1, d2, hL1, _, _, _, _, _, _, _, _,
      hsp1⟩ := goSplit_of_valid h1
    obtain ⟨z1, z2, z3, z4, n1, n2, e1, e2, hL2, _, _, _, _, _, _, _, _,
      hsp2⟩ := goSplit_of_valid h2
    unfold versionsCompatible at h
    rw [h1, h2, hsp1, hsp2] at h
    simp only [Bool.not_true, Bool.or_self, Bool.false_eq_true, if_false,
      List.headD_cons, beq_iff_eq] at h
    have hlists : [y1, y2, y3, y4] = [z1, z2, z3, z4] := by
      injection h
    rw [hL1, hL2]
    simpa using hlists
  · rintro ⟨h1, h2, htake⟩
    obtain ⟨y1, y2, y3, y4, m1, m2, d1, d2, hL1, _, _, _, _, _, _, _, _,
      hsp1⟩ := goSplit_of_valid h1
    obtain ⟨z1, z2, z3, z4, n1, n2, e1, e2, hL2, _, _, _, _, _, _, _, _,
      hsp2⟩ := goSplit_of_valid h2
    rw [hL1, hL2] at htake
    simp only [List.take_succ_cons, List.take_zero] at htake
    unfold versionsCompatible
    rw [h1, h2, hsp1, hsp2]
    simp only [Bool.not_true, Bool.or_self, Bool.false_eq_true, if_false,
      List.headD_cons, beq_iff_eq]
    exact congrArg String.mk htake

/-- A header value that splits into three segments is nonempty. -/
lemma goSplit_three_ne_empty {sig p0 p1 p2 : String}
    (h : goSplit '.' sig = [p0, p1, p2]) : (sig == "") = false := by
  rcases eq_or_ne sig "" with rfl | hne
  · rw [goSplit_empty] at h
    exact absurd h (by simp)
  · simp [hne]

/-! ## Claim theorems -/

/-- C8: if the signature header is absent or empty, `VerifyRequest`
fails with the missing-signature error; if it is non-empty but does not
split on `.` into exactly three segments, it fails with the
invalid-format error. -/
theorem verifyRequest_missing_or_invalid_format (P : WebhookPrims)
    (v : WebhookVerifier) (sig : String) (body : List Nat) :
    (sig = "" →
      VerifyRequest P v sig body = .error .missingSignatureHeader) ∧
    (sig ≠ "" → (goSplit '.' sig).length ≠ 3 →
      VerifyRequest P v sig body = .error .invalidJWSFormat) := by
  constructor
  · rintro rfl
    rfl
  · intro hne hlen
    have hbeq : (sig == "") = false := by simp [hne]
    unfold VerifyRequest
    rw [hbeq]
    rcases hsp : goSplit '.' sig with _ | ⟨a, _ | ⟨b, _ | ⟨c, _ | ⟨d, rest⟩⟩⟩⟩
    · rfl
    · rfl
    · rfl
    · rw [hsp] at hlen
      exact absurd rfl hlen
    · rfl

/-- Witness for C8 at the empty header and at a two-segment header. -/
theorem verifyRequest_missing_or_invalid_format_witness :
    VerifyRequest testPrims testVerifier "" testBody =
      .error .missingSignatureHeader ∧
    VerifyRequest testPrims testVerifier "a.b" testBody =
      .error .invalidJWSFormat :=
  ⟨(verifyRequest_missing_or_invalid_format testPrims testVerifier "" testBody).1
      rfl,
   (verifyRequest_missing_or_invalid_format testPrims testVerifier "a.b"
      testBody).2 (by decide) (by decide)⟩

/-- C6: a three-segment signature header whose decoded protected header
names a `kid` absent from the loaded key set fails with the unknown-key
error, for every signature segment. -/
theorem verifyRequest_unknown_key (P : WebhookPrims) (v : WebhookVerifier)
    (sig : String) (body : List Nat) (p0 p1 p2 : String) (hb : List Nat)
    (alg kid : String)
    (hsp : goSplit '.' sig = [p0, p1, p2])
    (hdec : P.b64Decode p0 = some hb)
    (hparse : P.parseJWSHeader hb = some (alg, kid))
    (hkey : v.keys.lookup kid = none) :
    VerifyRequest P v sig body = .error (.unknownKeyID kid) := by
  have hbeq := goSplit_three_ne_empty hsp
  unfold VerifyRequest
  rw [hbeq, hsp]
  simp only [Bool.false_eq_true, if_false, hdec, hparse, hkey]

/-- Witness for C6: an `ES256` header naming the unknown kid `nope`. -/
theorem verifyRequest_unknown_key_witness :
    VerifyRequest testPrims testVerifier (hdrB64 "ES256" "nope" ++ "..AAAA")
      testBody = .error (.unknownKeyID "nope") :=
  verifyRequest_unknown_key testPrims testVerifier
    (hdrB64 "ES256" "nope" ++ "..AAAA") testBody
    (hdrB64 "ES256" "nope") "" "AAAA" (strToBytes (jsonHdr "ES256" "nope"))
    "ES256" "nope" (by decide) (by decide) (by decide) (by decide)

/-- C10: the outcome of `VerifyRequest` never depends on the middle
(payload) segment of the signature header: two three-segment headers
that agree on the first and third segments verify identically, because
the signing input is rebuilt from the first segment and the raw body. -/
theorem verifyRequest_ignores_payload_segment (P : WebhookPrims)
    (v : WebhookVerifier) (body : List Nat) (sig1 sig2 p0 m1 m2 p2 : String)
    (h1 : goSplit '.' sig1 = [p0, m1, p2])
    (h2 : goSplit '.' sig2 = [p0, m2, p2]) :
    VerifyRequest P v sig1 body = VerifyRequest P v sig2 body := by
  have e1 := goSplit_three_ne_empty h1
  have e2 := goSplit_three_ne_empty h2
  unfold VerifyRequest
  rw [e1, e2, h1, h2]

/-- Witness for C10 at headers differing in a non-empty middle
segment. -/
theorem verifyRequest_ignores_payload_segment_witness :
    VerifyRequest testPrims testVerifier "a.b.c" testBody =
      VerifyRequest testPrims testVerifier "a.x.c" testBody :=
  verifyRequest_ignores_payload_segment testPrims testVerifier testBody
    "a.b.c" "a.x.c" "a" "b" "x" "c" (by decide) (by decide)

/-- C7 (amended): when the header specifies `ES256` but the key found
for its `kid` is not an EC key — or `RS256` and the key is not RSA —
and the signature segment itself decodes as base64url, `VerifyRequest`
fails with the key-algorithm-mismatch error.  The base64url condition
is needed: the signature segment is decoded before the algorithm
dispatch, so an undecodable third segment fails with the decode error
instead (see the counterexample). -/
theorem verifyRequest_alg_key_mismatch (P : WebhookPrims)
    (v : WebhookVerifier) (sig : String) (body : List Nat) (p0 p1 p2 : String)
    (hb sigBytes : List Nat) (kid : String) (key : PublicKey)
    (hsp : goSplit '.' sig = [p0, p1, p2])
    (hdec : P.b64Decode p0 = some hb)
    (hkey : v.keys.lookup kid = some key)
    (hsig : P.b64Decode p2 = some sigBytes) :
    (P.parseJWSHeader hb = some ("ES256", kid) →
      (∀ c x y, key ≠ .ec c x y) →
      VerifyRequest P v sig body = .error (.invalidKeyType "ES256")) ∧
    (P.parseJWSHeader hb = some ("RS256", kid) →
      (∀ m e, key ≠ .rsa m e) →
      VerifyRequest P v sig body = .error (.invalidKeyType "RS256")) := by
  have hbeq := goSplit_three_ne_empty hsp
  constructor
  · intro hparse hnot
    unfold VerifyRequest
    rw [hbeq, hsp]
    simp only [Bool.false_eq_true, if_false, hdec, hparse, hkey, hsig]
    cases key with
    | ec c x y => exact absurd rfl (hnot c x y)
    | rsa m e => rfl
  · intro hparse hnot
    unfold VerifyRequest
    rw [hbeq, hsp]
    simp only [Bool.false_eq_true, if_false, hdec, hparse, hkey, hsig]
    cases key with
    | ec c x y => rfl
    | rsa m e => exact absurd rfl (hnot m e)

/-- Witness for C7 (amended): `ES256` against the RSA key and `RS256`
against the EC key, with a decodable signature segment. -/
theorem verifyRequest_alg_key_mismatch_witness :
    VerifyRequest testPrims testVerifier (hdrB64 "ES256" "rk" ++ "..AAAA")
      testBody = .error (.invalidKeyType "ES256") ∧
    VerifyRequest testPrims testVerifier (hdrB64 "RS256" "k1" ++ "..AAAA")
      testBody = .error (.invalidKeyType "RS256") :=
  ⟨(verifyRequest_alg_key_mismatch testPrims testVerifier
      (hdrB64 "ES256" "rk" ++ "..AAAA") testBody
      (hdrB64 "ES256" "rk") "" "AAAA" (strToBytes (jsonHdr "ES256" "rk"))
      [0, 0, 0] "rk" rsaTestKey
      (by decide) (by decide) (by decide) (by decide)).1 (by decide)
      (fun c x y h => PublicKey.noConfusion h),
   (verifyRequest_alg_key_mismatch testPrims testVerifier
      (hdrB64 "RS256" "k1" ++ "..AAAA") testBody
      (hdrB64 "RS256" "k1") "" "AAAA" (strToBytes (jsonHdr "RS256" "k1"))
      [0, 0, 0] "k1" ecTestKey
      (by decide) (by decide) (by decide) (by decide)).2 (by decide)
      (fun m e h => PublicKey.noConfusion h)⟩

/-- Counterexample for C7 as stated: a request whose decoded header
specifies `ES256` and whose `kid` resolves to the RSA key, but whose
signature segment `!!!` is not base64url; `VerifyRequest` fails with
the signature-decode error, not the key-algorithm-mismatch error. -/
theorem verifyRequest_alg_key_mismatch_counterexample :
    testPrims.parseJWSHeader (strToBytes (jsonHdr "ES256" "rk")) =
      some ("ES256", "rk") ∧
    testPrims.b64Decode (hdrB64 "ES256" "rk") =
      some (strToBytes (jsonHdr "ES256" "rk")) ∧
    testVerifier.keys.lookup "rk" = some rsaTestKey ∧
    rsaTestKey = .rsa 3233 17 ∧
    VerifyRequest testPrims testVerifier (hdrB64 "ES256" "rk" ++ "..!!!")
      testBody = .error .signatureDecodeFailed ∧
    VerifyError.signatureDecodeFailed ≠ .invalidKeyType "ES256" := by
  refine ⟨by decide, by decide, by decide, rfl, rfl, by decide⟩

/-- C3: every returned `NegotiationResult` has `Success = true` exactly
when both `MissingRequired` and `VersionMismatches` are empty. -/
theorem negotiate_success_iff (n : CapabilityNegotiator) (profile : UCPProfile)
    (req : List String) (r : NegotiationResult)
    (h : Negotiate n profile req = some r) :
    r.Success = true ↔ (r.MissingRequired = [] ∧ r.VersionMismatches = []) := by
  obtain ⟨common, mismatches, minV, nv, hcm, hmin, hnv, rfl⟩ :=
    negotiate_some_elim h
  cases mismatches with
  | nil => simpa using checkRequired_snd_iff common req
  | cons m ms => simp

/-- Witness for C3 on a fully matching negotiation. -/
theorem negotiate_success_iff_witness :
    resSame.Success = true ↔
      (resSame.MissingRequired = [] ∧ resSame.VersionMismatches = []) :=
  negotiate_success_iff negOne profSame ["dev.ucp.shopping.checkout"] resSame
    (by decide)

/-- C9: a `Negotiate` call is deterministic and mutation-free: calling
again with identical inputs yields the identical result, and the
negotiator's stored platform capability list is unchanged by the
call. -/
theorem negotiateCall_deterministic_no_mutation (n : CapabilityNegotiator)
    (profile : UCPProfile) (req : List String) :
    (NegotiateCall n profile req).1 =
      (NegotiateCall (NegotiateCall n profile req).2 profile req).1 ∧
    (NegotiateCall n profile req).2 = n ∧
    (NegotiateCall (NegotiateCall n profile req).2 profile req).2 = n :=
  ⟨rfl, rfl, rfl⟩

/-- Counterexample for C2 as stated: a business profile whose protocol
version `2026` is not `YYYY-MM-DD` makes `Negotiate` index past the end
of the split version inside `compareVersions` — a Go panic, modelled as
`none` — instead of returning a `NegotiationResult`. -/
theorem negotiate_malformed_version_panics :
    Negotiate ⟨[capCheckout]⟩ ⟨⟨"2026", []⟩⟩ [] = none := by decide

/-- C2 (amended): `Negotiate` returns a `NegotiationResult` — every
outcome lands in the success flag and detail collections — provided the
business protocol version and all platform capability versions are
valid `YYYY-MM-DD` (and, when the platform list is empty, the business
year is nonzero); outside that set `compareVersions` can panic. -/
theorem negotiate_total_on_valid_versions (n : CapabilityNegotiator)
    (profile : UCPProfile) (req : List String)
    (hbv : isValidVersion profile.UCP.Version = true)
    (hpv : ∀ c ∈ n.platformCapabilities, isValidVersion c.Version = true)
    (hy : n.platformCapabilities = [] →
      (versionTriple profile.UCP.Version).1 ≠ 0) :
    ∃ r, Negotiate n profile req = some r := by
  obtain ⟨⟨common, mismatches⟩, hres, -, -, -, -⟩ :=
    negotiateFold_spec (buildBusinessCaps profile.UCP.Capabilities)
      n.platformCapabilities ([], [])
  have hcm : negotiateCommon n.platformCapabilities
      (buildBusinessCaps profile.UCP.Capabilities) =
        some (common, mismatches) := hres
  by_cases hemp : n.platformCapabilities = []
  · have hmin : getMinPlatformVersion n = some "" := by
      unfold getMinPlatformVersion
      rw [hemp]
    exact ⟨_, negotiate_some_intro req hcm hmin
      (negotiateProtocolVersion_empty hbv (hy hemp))⟩
  · obtain ⟨m, hmin, hmv, -, -⟩ := getMinPlatformVersion_spec hemp hpv
    exact ⟨_, negotiate_some_intro req hcm hmin
      (negotiateProtocolVersion_valid hbv hmv)⟩

/-- Witness for C2 (amended) on a well-formed negotiation. -/
theorem negotiate_total_on_valid_versions_witness :
    ∃ r, Negotiate negOne profNewer ["dev.ucp.shopping.checkout"] = some r :=
  negotiate_total_on_valid_versions negOne profNewer
    ["dev.ucp.shopping.checkout"] (by decide) (by decide) (by decide)

/-- Counterexample for C1 as stated: with an empty platform capability
list, the negotiated version is the empty string produced by
`getMinPlatformVersion`, not the business profile's declared protocol
version. -/
theorem negotiated_version_empty_platform_counterexample :
    (Negotiate ⟨[]⟩ ⟨⟨"2026-01-01", []⟩⟩ []).map
      NegotiationResult.NegotiatedVersion = some "" ∧
    ("" : String) ≠ "2026-01-01" := ⟨by decide, by decide⟩

/-- C1 (amended): with valid versions, `Negotiate` sets
`NegotiatedVersion` to the earlier — under the three-component integer
ordering — of the business protocol version and the minimum version
among the platform's own capabilities; when the platform capability
list is empty the empty-string minimum wins and `NegotiatedVersion` is
`""`, not the business version. -/
theorem negotiated_version_spec (n : CapabilityNegotiator)
    (profile : UCPProfile) (req : List String)
    (hbv : isValidVersion profile.UCP.Version = true)
    (hpv : ∀ c ∈ n.platformCapabilities, isValidVersion c.Version = true)
    (hy : n.platformCapabilities = [] →
      (versionTriple profile.UCP.Version).1 ≠ 0) :
    ∃ r, Negotiate n profile req = some r ∧
      ((n.platformCapabilities = [] ∧ r.NegotiatedVersion = "") ∨
       (n.platformCapabilities ≠ [] ∧ ∃ m, getMinPlatformVersion n = some m ∧
         m ∈ n.platformCapabilities.map (fun c => c.Version) ∧
         (∀ v ∈ n.platformCapabilities.map (fun c => c.Version),
           versionLE m v) ∧
         r.NegotiatedVersion = versionEarlier profile.UCP.Version m)) := by
  obtain ⟨⟨common, mismatches⟩, hres, -, -, -, -⟩ :=
    negotiateFold_spec (buildBusinessCaps profile.UCP.Capabilities)
      n.platformCapabilities ([], [])
  have hcm : negotiateCommon n.platformCapabilities
      (buildBusinessCaps profile.UCP.Capabilities) =
        some (common, mismatches) := hres
  by_cases hemp : n.platformCapabilities = []
  · have hmin : getMinPlatformVersion n = some "" := by
      unfold getMinPlatformVersion
      rw [hemp]
    exact ⟨_, negotiate_some_intro req hcm hmin
      (negotiateProtocolVersion_empty hbv (hy hemp)), Or.inl ⟨hemp, rfl⟩⟩
  · obtain ⟨m, hmin, hmv, hmem, hall⟩ := getMinPlatformVersion_spec hemp hpv
    exact ⟨_, negotiate_some_intro req hcm hmin
      (negotiateProtocolVersion_valid hbv hmv),
      Or.inr ⟨hemp, m, hmin, hmem, fun v hv => hall v hv, rfl⟩⟩

/-- Witness for C1 (amended) on a one-capability platform. -/
theorem negotiated_version_spec_witness :
    ∃ r, Negotiate negOne ⟨⟨"2026-06-30", []⟩⟩ [] = some r ∧
      ((negOne.platformCapabilities = [] ∧ r.NegotiatedVersion = "") ∨
       (negOne.platformCapabilities ≠ [] ∧
        ∃ m, getMinPlatformVersion negOne = some m ∧
          m ∈ negOne.platformCapabilities.map (fun c => c.Version) ∧
          (∀ v ∈ negOne.platformCapabilities.map (fun c => c.Version),
            versionLE m v) ∧
          r.NegotiatedVersion = versionEarlier "2026-06-30" m)) :=
  negotiated_version_spec negOne ⟨⟨"2026-06-30", []⟩⟩ []
    (by decide) (by decide) (by decide)

/-- C4: each compatible platform/business pair sharing a name
contributes to the common set the platform descriptor with its version
replaced by the minimum of the two versions under the three-component
integer ordering — a version that is one of the two and no later than
either. -/
theorem negotiated_common_min_version (n : CapabilityNegotiator)
    (profile : UCPProfile) (req : List String) (p b : CapabilityDiscovery)
    (r : NegotiationResult)
    (hp : p ∈ n.platformCapabilities)
    (hb : (buildBusinessCaps profile.UCP.Capabilities).lookup p.Name = some b)
    (hcompat : versionsCompatible p.Version b.Version = true)
    (hr : Negotiate n profile req = some r) :
    { p with Version := specMinVersion p.Version b.Version } ∈
      r.CommonCapabilities ∧
    (specMinVersion p.Version b.Version = p.Version ∨
     specMinVersion p.Version b.Version = b.Version) ∧
    versionLE (specMinVersion p.Version b.Version) p.Version ∧
    versionLE (specMinVersion p.Version b.Version) b.Version := by
  obtain ⟨common, mismatches, minV, nv, hcm, hmin, hnv, rfl⟩ :=
    negotiate_some_elim hr
  obtain ⟨res, hres, -, -, hpairs, -⟩ :=
    negotiateFold_spec (buildBusinessCaps profile.UCP.Capabilities)
      n.platformCapabilities ([], [])
  have hres2 : negotiateCommon n.platformCapabilities
      (buildBusinessCaps profile.UCP.Capabilities) = some res := hres
  rw [hcm] at hres2
  injection hres2 with hres2
  subst hres2
  refine ⟨(hpairs p hp b hb).1 hcompat, ?_, ?_, ?_⟩
  · unfold specMinVersion
    by_cases hlt : tripleLT (versionTriple b.Version) (versionTriple p.Version)
    · rw [if_pos hlt]
      exact Or.inr rfl
    · rw [if_neg hlt]
      exact Or.inl rfl
  · unfold specMinVersion versionLE
    by_cases hlt : tripleLT (versionTriple b.Version) (versionTriple p.Version)
    · rw [if_pos hlt]
      exact tripleLT_asymm hlt
    · rw [if_neg hlt]
      exact tripleLT_irrefl _
  · unfold specMinVersion versionLE
    by_cases hlt : tripleLT (versionTriple b.Version) (versionTriple p.Version)
    · rw [if_pos hlt]
      exact tripleLT_irrefl _
    · rw [if_neg hlt]
      exact hlt

/-- Witness for C4: platform `2026-01-11` and business `2026-06-30`
negotiate to `2026-01-11`. -/
theorem negotiated_common_min_version_witness :
    { capCheckout with
        Version := specMinVersion capCheckout.Version capCheckoutNewer.Version }
      ∈ resNewer.CommonCapabilities ∧
    (specMinVersion capCheckout.Version capCheckoutNewer.Version =
      capCheckout.Version ∨
     specMinVersion capCheckout.Version capCheckoutNewer.Version =
      capCheckoutNewer.Version) ∧
    versionLE (specMinVersion capCheckout.Version capCheckoutNewer.Version)
      capCheckout.Version ∧
    versionLE (specMinVersion capCheckout.Version capCheckoutNewer.Version)
      capCheckoutNewer.Version :=
  negotiated_common_min_version negOne profNewer [] capCheckout
    capCheckoutNewer resNewer (by decide) (by decide) (by decide) (by decide)

/-- C5: compatibility is exactly "both versions valid with textually
equal years"; an incompatible same-name pair is recorded as a mismatch
carrying the name and both versions, contributes nothing with that name
to the common set, and forces `Success = false`. -/
theorem version_incompat_records_mismatch (n : CapabilityNegotiator)
    (profile : UCPProfile) (req : List String) (p b : CapabilityDiscovery)
    (r : NegotiationResult)
    (hp : p ∈ n.platformCapabilities)
    (hb : (buildBusinessCaps profile.UCP.Capabilities).lookup p.Name = some b)
    (hincompat : versionsCompatible p.Version b.Version = false)
    (huniq : ∀ q ∈ n.platformCapabilities, q.Name = p.Name → q = p)
    (hr : Negotiate n profile req = some r) :
    (∀ v1 v2, versionsCompatible v1 v2 = true ↔
      (isValidVersion v1 = true ∧ isValidVersion v2 = true ∧
        v1.toList.take 4 = v2.toList.take 4)) ∧
    VersionMismatch.mk p.Name p.Version b.Version ∈ r.VersionMismatches ∧
    (∀ c ∈ r.CommonCapabilities, c.Name ≠ p.Name) ∧
    r.Success = false := by
  obtain ⟨common, mismatches, minV, nv, hcm, hmin, hnv, rfl⟩ :=
    negotiate_some_elim hr
  obtain ⟨res, hres, -, -, hpairs, hsrc⟩ :=
    negotiateFold_spec (buildBusinessCaps profile.UCP.Capabilities)
      n.platformCapabilities ([], [])
  have hres2 : negotiateCommon n.platformCapabilities
      (buildBusinessCaps profile.UCP.Capabilities) = some res := hres
  rw [hcm] at hres2
  injection hres2 with hres2
  subst hres2
  have hmm := (hpairs p hp b hb).2 hincompat
  refine ⟨versionsCompatible_iff, hmm, ?_, ?_⟩
  · intro c hc hname
    rcases hsrc c hc with hfalse | ⟨q, hq, b2, hb2, hcomp2, rfl⟩
    · simp at hfalse
    · have hqn : q.Name = p.Name := hname
      have hqp := huniq q hq hqn
      subst hqp
      rw [hb] at hb2
      injection hb2 with hb2
      subst hb2
      rw [hincompat] at hcomp2
      exact Bool.noConfusion hcomp2
  · have hne : mismatches ≠ [] := List.ne_nil_of_mem hmm
    have hlen : mismatches.length > 0 := List.length_pos.mpr hne
    show (if mismatches.length > 0 then false
          else (checkRequired common req).2) = false
    rw [if_pos hlen]

/-- Witness for C5: platform `2025-12-31` against business `2026-01-01`
for the same capability name. -/
theorem version_incompat_records_mismatch_witness :
    (∀ v1 v2, versionsCompatible v1 v2 = true ↔
      (isValidVersion v1 = true ∧ isValidVersion v2 = true ∧
        v1.toList.take 4 = v2.toList.take 4)) ∧
    VersionMismatch.mk capYear25.Name capYear25.Version capYear26.Version ∈
      resMismatch.VersionMismatches ∧
    (∀ c ∈ resMismatch.CommonCapabilities, c.Name ≠ capYear25.Name) ∧
    resMismatch.Success = false :=
  version_incompat_records_mismatch negYear25 profYear26 [] capYear25
    capYear26 resMismatch (by decide) (by decide) (by decide) (by decide)
    (by decide)

end UCP
